import Mathlib

/-!
Shallow embedding of `ai_wargame.py` (a two-sided grid combat game with a
depth-bounded minimax / alpha-beta search engine).

Conventions of the embedding:
* Python `int` is modelled as `Int` (Python integers are unbounded).
* The mutable `Game` object is modelled as an immutable record; every mutating
  method becomes a function returning the updated record.
* The board `list[list[Unit|None]]` is modelled as a total function
  `Coord → Option Unit`; all reads and writes of the source go through
  `Game.get` / `Game.set`, which guard with `is_valid_coord` exactly as the
  source does, so contents outside the `dim × dim` rectangle are never
  observable.
* Python generators (`iter_range`, `iter_adjacent`, `iter_rectangle`,
  `player_units`, `move_candidates`) are modelled as the lists they yield,
  in yield order.
* Fallible code (dict lookup / division in `suggest_move`) is modelled with
  `Except`.
-/

namespace AIWargame

/-- `UnitType` enum of the source (`AI = 0, Tech = 1, Virus = 2, Program = 3,
Firewall = 4`). -/
inductive UnitType where
  | AI
  | Tech
  | Virus
  | Program
  | Firewall
deriving DecidableEq, Repr

/-- The `.value` of a `UnitType` enum member, used to index the damage and
repair tables. -/
def UnitType.value : UnitType → Nat
  | .AI => 0
  | .Tech => 1
  | .Virus => 2
  | .Program => 3
  | .Firewall => 4

/-- `Player` enum of the source. -/
inductive Player where
  | Attacker
  | Defender
deriving DecidableEq, Repr

/-- `Player.next`: the other player. -/
def Player.next : Player → Player
  | .Attacker => .Defender
  | .Defender => .Attacker

/-- `Unit` dataclass: player, type, health (default 9). -/
structure Unit where
  player : Player
  type : UnitType
  health : Int
deriving DecidableEq, Repr

/-- `Unit.damage_table` class variable, row-indexed by the attacker's
`UnitType.value`, column-indexed by the defender's. -/
def Unit.damage_table : List (List Int) :=
  [[3, 3, 3, 3, 1],
   [1, 1, 6, 1, 1],
   [9, 6, 1, 6, 1],
   [3, 3, 3, 3, 1],
   [1, 1, 1, 1, 1]]

/-- `Unit.repair_table` class variable. -/
def Unit.repair_table : List (List Int) :=
  [[0, 1, 1, 0, 0],
   [3, 0, 0, 3, 3],
   [0, 0, 0, 0, 0],
   [0, 0, 0, 0, 0],
   [0, 0, 0, 0, 0]]

/-- `Unit.is_alive`: health strictly positive. -/
def Unit.is_alive (u : Unit) : Bool :=
  u.health > 0

/-- `Unit.mod_health`: add the delta, then clamp below at 0 and above at 9
(the source sets `self.health += delta` and then clamps). -/
def Unit.mod_health (u : Unit) (health_delta : Int) : Unit :=
  let h := u.health + health_delta
  if h < 0 then { u with health := 0 }
  else if h > 9 then { u with health := 9 }
  else { u with health := h }

/-- `Unit.damage_amount`: table damage, capped at the target's current health.
The `getD` defaults are never hit: `UnitType.value < 5` and both tables are
5×5. -/
def Unit.damage_amount (u target : Unit) : Int :=
  let amount := (Unit.damage_table.getD u.type.value []).getD target.type.value 0
  if target.health - amount < 0 then target.health else amount

/-- `Unit.repair_amount`: table repair, capped so health does not exceed 9. -/
def Unit.repair_amount (u target : Unit) : Int :=
  let amount := (Unit.repair_table.getD u.type.value []).getD target.type.value 0
  if target.health + amount > 9 then 9 - target.health else amount

/-- `Coord` dataclass: (row, col). -/
structure Coord where
  row : Int
  col : Int
deriving DecidableEq, Repr

/-- Python `range(a, b)` over integers, as the list it yields. -/
def intRange (a b : Int) : List Int :=
  (List.range (b - a).toNat).map (fun i => a + (i : Int))

/-- `Coord.iter_range`: all coords of the square of half-width `dist` centered
on the coord (the center itself included), in row-major yield order. -/
def Coord.iter_range (c : Coord) (dist : Int) : List Coord :=
  (intRange (c.row - dist) (c.row + 1 + dist)).flatMap fun row =>
    (intRange (c.col - dist) (c.col + 1 + dist)).map fun col => Coord.mk row col

/-- `Coord.iter_adjacent`: up, left, down, right — in that yield order. -/
def Coord.iter_adjacent (c : Coord) : List Coord :=
  [Coord.mk (c.row - 1) c.col, Coord.mk c.row (c.col - 1),
   Coord.mk (c.row + 1) c.col, Coord.mk c.row (c.col + 1)]

/-- `CoordPair` dataclass: a move (src, dst) or a rectangular area. -/
structure CoordPair where
  src : Coord
  dst : Coord
deriving DecidableEq, Repr

/-- `CoordPair.iter_rectangle`: cells of the rectangle, row-major. -/
def CoordPair.iter_rectangle (p : CoordPair) : List Coord :=
  (intRange p.src.row (p.dst.row + 1)).flatMap fun row =>
    (intRange p.src.col (p.dst.col + 1)).map fun col => Coord.mk row col

/-- `CoordPair.from_dim`: the full `dim × dim` rectangle. -/
def CoordPair.from_dim (dim : Int) : CoordPair :=
  CoordPair.mk (Coord.mk 0 0) (Coord.mk (dim - 1) (dim - 1))

/-- `Options` dataclass. Only the fields read by the functions modelled here
are kept: `dim`, `max_depth`, `alpha_beta`, `max_turns`. (`min_depth`,
`randomize_moves` are never read by the source; `max_time` only feeds the
search time-budget break, which is not modelled — see `minimax`; `game_type`
and `broker` only feed the heuristic player selection, logging and networking,
which no modelled function uses.) `max_depth` is `int|None = 4` in the source;
it is modelled as `Nat`, matching its use as a nonnegative search depth. -/
structure Options where
  dim : Int := 5
  max_depth : Nat := 4
  alpha_beta : Bool := true
  max_turns : Option Int := some 100
deriving Repr

/-- `Game` dataclass. The board is a total function guarded by
`is_valid_coord` in `get`/`set`; `stats` (search statistics) is modelled
separately where a claim needs it. Field names drop the leading underscore of
`_attacker_has_ai` / `_defender_has_ai`. -/
structure Game where
  board : Coord → Option Unit
  next_player : Player := .Attacker
  turns_played : Int := 0
  options : Options := {}
  attacker_has_ai : Bool := true
  defender_has_ai : Bool := true

/-- `Game.is_valid_coord`: inside the `dim × dim` board. -/
def Game.is_valid_coord (g : Game) (c : Coord) : Bool :=
  ¬(c.row < 0 ∨ c.row ≥ g.options.dim ∨ c.col < 0 ∨ c.col ≥ g.options.dim)

/-- `Game.get`: board cell contents; `none` outside the board. -/
def Game.get (g : Game) (c : Coord) : Option Unit :=
  if g.is_valid_coord c then g.board c else none

/-- `Game.set`: write a board cell; no-op outside the board. -/
def Game.set (g : Game) (c : Coord) (u : Option Unit) : Game :=
  if g.is_valid_coord c then
    { g with board := fun c2 => if c2 = c then u else g.board c2 }
  else g

/-- `Game.is_empty` (source precondition: the coord is valid). -/
def Game.is_empty (g : Game) (c : Coord) : Bool :=
  (g.board c).isNone

/-- `Game.remove_dead`: drop the unit at `c` if its health is 0, clearing the
owning side's AI flag when the dead unit is an AI. -/
def Game.remove_dead (g : Game) (c : Coord) : Game :=
  match g.get c with
  | none => g
  | some u =>
    if ¬u.is_alive then
      let g2 := g.set c none
      if u.type = UnitType.AI then
        if u.player = Player.Attacker then { g2 with attacker_has_ai := false }
        else { g2 with defender_has_ai := false }
      else g2
    else g

/-- `Game.mod_health`: modify the health of the unit at `c` (no-op on an empty
or invalid cell), then remove it if dead. -/
def Game.mod_health (g : Game) (c : Coord) (health_delta : Int) : Game :=
  match g.get c with
  | none => g
  | some target => (g.set c (some (target.mod_health health_delta))).remove_dead c

/-- `Game.in_combat`: some orthogonally adjacent valid cell holds an enemy of
the unit at `coord`. The source fetches `unitSrc = self.get(coord)` and reads
`unitSrc.player`; it is only called with an occupied `coord` ("must be valid
coord"), and on an empty one the Python would raise `AttributeError` — that
unreachable path is modelled as `false`. -/
def Game.in_combat (g : Game) (coord : Coord) : Bool :=
  coord.iter_adjacent.any fun adjacent_coord =>
    g.is_valid_coord adjacent_coord && !g.is_empty adjacent_coord &&
      match g.get coord, g.get adjacent_coord with
      | some unitSrc, some unitDst => unitSrc.player ≠ unitDst.player
      | _, _ => false

/-- `Game.is_valid_move`, transcribed branch for branch:
in-bounds src/dst; src held by the side to move; `src == dst` (self-destruct)
always valid; only the **column** delta is bounded by 1 (the source never
bounds the row delta); then the repair/combat chain on an occupied dst, and
the forward-direction + engagement checks for AI/Firewall/Program on an empty
dst (each direction check is the conjunction of two inequations, as in the
source). -/
def Game.is_valid_move (g : Game) (coords : CoordPair) : Bool :=
  if ¬g.is_valid_coord coords.src ∨ ¬g.is_valid_coord coords.dst then false
  else match g.get coords.src with
  | none => false
  | some unitSrc =>
    if unitSrc.player ≠ g.next_player then false
    else if coords.dst = coords.src then true
    else if (coords.src.col - coords.dst.col).natAbs > 1 then false
    else
      let dirAndCombat : Bool :=
        if unitSrc.type ≠ UnitType.Tech ∧ unitSrc.type ≠ UnitType.Virus then
          if unitSrc.player = Player.Attacker ∧
              coords.dst.col ≠ coords.src.col - 1 ∧ coords.dst.row ≠ coords.src.row - 1 then
            false
          else if unitSrc.player = Player.Defender ∧
              coords.dst.col ≠ coords.src.col + 1 ∧ coords.dst.row ≠ coords.src.row + 1 then
            false
          else if g.in_combat coords.src then false
          else true
        else true
      match g.get coords.dst with
      | some unitDst =>
        if unitDst.health < 9 ∧ unitDst.player = unitSrc.player ∧
            unitSrc.repair_amount unitDst > 0 then true
        else if unitDst.player ≠ unitSrc.player then true
        else if unitDst.player = unitSrc.player ∧ unitDst.health = 9 then false
        else if unitDst.player = unitSrc.player ∧
            (unitSrc.repair_amount unitDst = 0 ∨ unitDst.health < 9) then false
        else dirAndCombat
      | none => dirAndCombat

/-- `Game.perform_move`: validate, then dispatch on self-destruct / combat /
repair / relocation, returning the success flag and the updated state (the
result string is not modelled).

In the self-destruct branch the source holds an alias `unitSrc` to the acting
unit while the `iter_range 1` loop also damages the cell `src` itself, so the
final `mod_health(src, -unitSrc.health)` reads the *already damaged* health;
if the loop killed and removed the unit, `unitSrc.health` is 0 and the call is
a no-op on the now-empty cell. Both cases are captured by re-reading the cell
after the loop. The `(false, g)` arm for an occupied `dst` with an empty `src`
is unreachable: a validated non-self-destruct move always has an occupied
`src` (the Python would raise there). -/
def Game.perform_move (g : Game) (coords : CoordPair) : Bool × Game :=
  let unitSrc := g.get coords.src
  let unitDst := g.get coords.dst
  if g.is_valid_move coords then
    if coords.dst = coords.src then
      let g1 := (coords.src.iter_range 1).foldl
        (fun acc adjacent_coord => acc.mod_health adjacent_coord (-2)) g
      let g2 := match g1.get coords.src with
        | some u => g1.mod_health coords.src (-u.health)
        | none => g1
      (true, g2)
    else match unitDst with
    | some ud =>
      match unitSrc with
      | some us =>
        if us.player ≠ ud.player then
          let dmg := us.damage_amount ud
          let sdmg := ud.damage_amount us
          (true, (g.mod_health coords.dst (-dmg)).mod_health coords.src (-sdmg))
        else
          let rpr := us.repair_amount ud
          (true, g.mod_health coords.dst rpr)
      | none => (false, g)
    | none => (true, (g.set coords.dst (g.get coords.src)).set coords.src none)
  else (false, g)

/-- `Game.next_turn`: hand the move to the other player. -/
def Game.next_turn (g : Game) : Game :=
  { g with next_player := g.next_player.next, turns_played := g.turns_played + 1 }

/-- `Game.has_winner`: reaching the turn limit always resolves to the
Defender; otherwise the AI-alive flags decide (both alive: no winner yet). -/
def Game.has_winner (g : Game) : Option Player :=
  if (match g.options.max_turns with
      | some max_turns => decide (g.turns_played ≥ max_turns)
      | none => false) then
    some Player.Defender
  else if g.attacker_has_ai then
    if g.defender_has_ai then none else some Player.Attacker
  else some Player.Defender

/-- `Game.is_finished`. -/
def Game.is_finished (g : Game) : Bool :=
  g.has_winner.isSome

/-- `Game.player_units`: the player's units with their coords, in row-major
board order. -/
def Game.player_units (g : Game) (player : Player) : List (Coord × Unit) :=
  (CoordPair.from_dim g.options.dim).iter_rectangle.filterMap fun coord =>
    match g.get coord with
    | some u => if u.player = player then some (coord, u) else none
    | none => none

/-- `Game.move_candidates`: for each owned unit, the valid moves to its four
adjacent cells (up, left, down, right), then its self-destruct move (yielded
without re-validation, as in the source). -/
def Game.move_candidates (g : Game) : List CoordPair :=
  (g.player_units g.next_player).flatMap fun x =>
    (x.1.iter_adjacent.filterMap fun dst =>
      if g.is_valid_move (CoordPair.mk x.1 dst) then some (CoordPair.mk x.1 dst) else none)
    ++ [CoordPair.mk x.1 x.1]

/-- `Game.__post_init__`: the fixed initial layout, written with the same
sequence of `set` calls as the source (every `Unit(...)` there takes the
default health 9). -/
def new_game (options : Options) : Game :=
  let md := options.dim - 1
  let g : Game := { board := fun _ => none, options := options }
  let g := g.set (Coord.mk 0 0) (some (Unit.mk .Defender .AI 9))
  let g := g.set (Coord.mk 1 0) (some (Unit.mk .Defender .Tech 9))
  let g := g.set (Coord.mk 0 1) (some (Unit.mk .Defender .Tech 9))
  let g := g.set (Coord.mk 2 0) (some (Unit.mk .Defender .Firewall 9))
  let g := g.set (Coord.mk 0 2) (some (Unit.mk .Defender .Firewall 9))
  let g := g.set (Coord.mk 1 1) (some (Unit.mk .Defender .Program 9))
  let g := g.set (Coord.mk md md) (some (Unit.mk .Attacker .AI 9))
  let g := g.set (Coord.mk (md - 1) md) (some (Unit.mk .Attacker .Virus 9))
  let g := g.set (Coord.mk md (md - 1)) (some (Unit.mk .Attacker .Virus 9))
  let g := g.set (Coord.mk (md - 2) md) (some (Unit.mk .Attacker .Program 9))
  let g := g.set (Coord.mk md (md - 2)) (some (Unit.mk .Attacker .Program 9))
  let g := g.set (Coord.mk (md - 1) (md - 1)) (some (Unit.mk .Attacker .Firewall 9))
  g

/-- The game built by `main` with default options. -/
def default_game : Game :=
  new_game {}

/-- `MAX_HEURISTIC_SCORE` module constant. -/
def MAX_HEURISTIC_SCORE : Int := 2000000000

/-- `MIN_HEURISTIC_SCORE` module constant. -/
def MIN_HEURISTIC_SCORE : Int := -2000000000

/-- The candidate loop of the maximizing branch of `Game.minimax`.
`recur alpha child` is the recursive call one ply down (`max_player=False`)
with the current alpha and the fixed beta; `score`/`best_move` are the running
best (updated on strict improvement, so the first best move is kept); when
`ab` is set, alpha is raised to `max alpha current_score` after each candidate
and the remaining candidates are skipped once `beta ≤ alpha`. The cooperative
time-budget break of the source (checked at the same point in the loop) is not
modelled: all modelled runs are uninterrupted. -/
def maxLoop (recur : Int → Game → Int × Option CoordPair) (ab : Bool) (beta : Int)
    (s1 : Game) : List CoordPair → Int → Option CoordPair → Int → Int × Option CoordPair
  | [], score, best_move, _ => (score, best_move)
  | move :: rest, score, best_move, alpha =>
    let current_score := (recur alpha (s1.perform_move move).2).1
    let score2 := if current_score > score then current_score else score
    let best2 := if current_score > score then some move else best_move
    if ab then
      let alpha2 := max alpha current_score
      if beta ≤ alpha2 then (score2, best2)
      else maxLoop recur ab beta s1 rest score2 best2 alpha2
    else maxLoop recur ab beta s1 rest score2 best2 alpha

/-- The candidate loop of the minimizing branch of `Game.minimax` (mirror
image of `maxLoop`: beta is lowered, pruning when `beta ≤ alpha`). -/
def minLoop (recur : Int → Game → Int × Option CoordPair) (ab : Bool) (alpha : Int)
    (s1 : Game) : List CoordPair → Int → Option CoordPair → Int → Int × Option CoordPair
  | [], score, best_move, _ => (score, best_move)
  | move :: rest, score, best_move, beta =>
    let current_score := (recur beta (s1.perform_move move).2).1
    let score2 := if current_score < score then current_score else score
    let best2 := if current_score < score then some move else best_move
    if ab then
      let beta2 := min beta current_score
      if beta2 ≤ alpha then (score2, best2)
      else minLoop recur ab alpha s1 rest score2 best2 beta2
    else minLoop recur ab alpha s1 rest score2 best2 beta

/-- `Game.minimax`, depth-bounded minimax with togglable alpha-beta pruning.

* `h` is the heuristic evaluator; the source evaluates
  `self.heuristic_e2(game)` where `game` is the root game object threaded
  unchanged through the recursion, so the evaluator is a fixed function of
  the node state.
* `ab` mirrors `self.options.alpha_beta`; the options object is shared by
  every clone made during one search, so the flag is constant throughout and
  is taken as a parameter.
* `root` mirrors `self.stats.minimax_entry == 0`: the top-level call skips
  `next_turn`, every deeper call applies it (after the leaf test, which
  therefore sees the pre-increment `turns_played`).
* The statistics increments and the wall-clock budget break are not modelled
  (uninterrupted runs).
* Leaf (finished game or `depth == 0`): the heuristic score with no move.
* Otherwise each candidate move is performed on a fresh copy of the
  post-`next_turn` state and explored one ply deeper with roles flipped. -/
def minimax (h : Game → Int) (ab : Bool) :
    Nat → Bool → Int → Int → Bool → Game → Int × Option CoordPair
  | 0, _, _, _, _, s => (h s, none)
  | depth + 1, root, alpha, beta, max_player, s =>
    if s.is_finished then (h s, none)
    else
      let s1 := if root then s else s.next_turn
      if max_player then
        maxLoop (fun a c => minimax h ab depth false a beta false c) ab beta s1
          s1.move_candidates MIN_HEURISTIC_SCORE none alpha
      else
        minLoop (fun b c => minimax h ab depth false alpha b true c) ab alpha s1
          s1.move_candidates MAX_HEURISTIC_SCORE none beta

/-- The plain (pruning-free) minimax value of a node: reference function used
to relate the pruned and unpruned runs. `foldl max` / `foldl min` over the
candidate list mirrors the strict-improvement updates of the loops, with the
same `MIN_HEURISTIC_SCORE` / `MAX_HEURISTIC_SCORE` starting scores. -/
def mmVal (h : Game → Int) : Nat → Bool → Bool → Game → Int
  | 0, _, _, s => h s
  | depth + 1, root, max_player, s =>
    if s.is_finished then h s
    else
      let s1 := if root then s else s.next_turn
      if max_player then
        s1.move_candidates.foldl
          (fun acc m => max acc (mmVal h depth false false (s1.perform_move m).2))
          MIN_HEURISTIC_SCORE
      else
        s1.move_candidates.foldl
          (fun acc m => min acc (mmVal h depth false true (s1.perform_move m).2))
          MAX_HEURISTIC_SCORE

/-- The move chosen by `Game.suggest_move`: a top-level minimax run at the
configured max depth over the full heuristic window, maximizing for the side
to move. The source's logging, statistics reporting (see `branching_factor`)
and elapsed-time bookkeeping do not influence the returned move and are
modelled separately or omitted. -/
def Game.suggest_move (h : Game → Int) (g : Game) : Option CoordPair :=
  (minimax h g.options.alpha_beta g.options.max_depth true
    MIN_HEURISTIC_SCORE MAX_HEURISTIC_SCORE true g).2

/-- A Python `dict[int, int]` read `d[k]`, raising `KeyError` on a missing
key, for the statistics dictionary `evaluations_per_depth` (modelled as an
association list). -/
def dict_getitem (d : List (Nat × Nat)) (k : Nat) : Except String Nat :=
  match d.lookup k with
  | some v => Except.ok v
  | none => Except.error "KeyError"

/-- The branching-factor computation of `Game.suggest_move`, transcribed from
`self.stats.evaluations_per_depth[0] / self.stats.evaluations_per_depth[1]`:
two unguarded dict reads followed by true division (rationals model Python
floats on these integer inputs). Division by zero raises, as in Python. -/
def branching_factor (evaluations_per_depth : List (Nat × Nat)) : Except String Rat :=
  match dict_getitem evaluations_per_depth 0 with
  | Except.error e => Except.error e
  | Except.ok a =>
    match dict_getitem evaluations_per_depth 1 with
    | Except.error e => Except.error e
    | Except.ok b =>
      if b = 0 then Except.error "ZeroDivisionError"
      else Except.ok ((a : Rat) / (b : Rat))

/-- The whitespace stripped by Python's `str.strip()` on ASCII input. -/
def py_whitespace : List Char := [' ', '\t', '\n', '\r', '\x0b', '\x0c']

/-- Python `s.strip()` (ASCII): drop leading and trailing whitespace. -/
def py_strip (s : List Char) : List Char :=
  ((s.dropWhile (py_whitespace.contains ·)).reverse.dropWhile
    (py_whitespace.contains ·)).reverse

/-- The separator characters `" ,.:;-_"` removed by `from_string`. -/
def move_seps : List Char := [' ', ',', '.', ':', ';', '-', '_']

/-- The cleanup both `from_string` parsers perform: `strip()`, then
`replace(sep, "")` for each separator — i.e. strip the ends, then delete
every separator occurrence. -/
def clean_move_text (s : List Char) : List Char :=
  (py_strip s).filter (fun c => !move_seps.contains c)

/-- Python `str.upper()` on one ASCII character. -/
def py_upper (c : Char) : Char :=
  if 'a' ≤ c ∧ c ≤ 'z' then Char.ofNat (c.toNat - 32) else c

/-- Python `str.lower()` on one ASCII character. -/
def py_lower (c : Char) : Char :=
  if 'A' ≤ c ∧ c ≤ 'Z' then Char.ofNat (c.toNat + 32) else c

/-- The row alphabet `"ABCDEFGHIJKLMNOPQRSTUVWXYZ"`. -/
def row_letters : List Char := "ABCDEFGHIJKLMNOPQRSTUVWXYZ".toList

/-- The column alphabet `"0123456789abcdef"`. -/
def col_digits : List Char := "0123456789abcdef".toList

/-- Python `alphabet.find(c)`: the index of the first occurrence, `-1` when
absent. -/
def str_find (alphabet : List Char) (c : Char) : Int :=
  match alphabet.findIdx? (· = c) with
  | some i => (i : Int)
  | none => -1

/-- `CoordPair.from_string`: strip whitespace and separators; if exactly 4
characters remain, build the pair by alphabet lookups (each lookup yields
`-1` for a character not in its alphabet); otherwise `None`. -/
def CoordPair.from_string (s : List Char) : Option CoordPair :=
  let t := clean_move_text s
  if t.length = 4 then
    some (CoordPair.mk
      (Coord.mk (str_find row_letters (py_upper (t.getD 0 ' ')))
                (str_find col_digits (py_lower (t.getD 1 ' '))))
      (Coord.mk (str_find row_letters (py_upper (t.getD 2 ' ')))
                (str_find col_digits (py_lower (t.getD 3 ' ')))))
  else none

/-! ### Basic lemmas about board access -/

/-- A successful `get` implies the coord is on the board. -/
theorem Game.get_some_valid {g : Game} {c : Coord} {u : Unit} (h : g.get c = some u) :
    g.is_valid_coord c = true := by
  unfold Game.get at h
  by_cases hv : g.is_valid_coord c
  · exact hv
  · simp [hv] at h

/-- Setting the AI flags does not affect board reads. -/
theorem Game.get_flagA (g : Game) (b : Bool) (c : Coord) :
    ({ g with attacker_has_ai := b } : Game).get c = g.get c :=
  rfl

/-- Setting the AI flags does not affect board reads. -/
theorem Game.get_flagD (g : Game) (b : Bool) (c : Coord) :
    ({ g with defender_has_ai := b } : Game).get c = g.get c :=
  rfl

/-- `set` does not change the board dimensions. -/
theorem Game.set_is_valid_coord (g : Game) (c : Coord) (u : Option Unit) (c2 : Coord) :
    (g.set c u).is_valid_coord c2 = g.is_valid_coord c2 := by
  unfold Game.set
  split <;> rfl

/-- Reading after writing: the written cell if it is the (valid) target,
otherwise the old contents. -/
theorem Game.get_set (g : Game) (c : Coord) (u : Option Unit) (c2 : Coord) :
    (g.set c u).get c2 = if c2 = c ∧ g.is_valid_coord c then u else g.get c2 := by
  by_cases hv : g.is_valid_coord c
  · have h1 : g.set c u
        = { g with board := fun x => if x = c then u else g.board x } := by
      unfold Game.set
      rw [if_pos hv]
    have h2 : ∀ x, ({ g with board := fun x => if x = c then u else g.board x }
        : Game).is_valid_coord x = g.is_valid_coord x := fun _ => rfl
    rw [h1]
    unfold Game.get
    rw [h2]
    by_cases hvc2 : g.is_valid_coord c2
    · by_cases he : c2 = c
      · subst he
        simp [hvc2, hv]
      · simp [hvc2, he]
    · have he : ¬(c2 = c ∧ g.is_valid_coord c = true) := by
        rintro ⟨rfl, _⟩
        exact hvc2 hv
      simp [hvc2, he]
  · have h1 : g.set c u = g := by
      unfold Game.set
      rw [if_neg hv]
    have he : ¬(c2 = c ∧ g.is_valid_coord c = true) := by
      rintro ⟨rfl, h⟩
      exact hv h
    rw [h1, if_neg he]

/-- `remove_dead` does not change cells other than its target. -/
theorem Game.get_remove_dead_ne (g : Game) (c : Coord) (c2 : Coord) (hne : c2 ≠ c) :
    (g.remove_dead c).get c2 = g.get c2 := by
  have hset : (g.set c none).get c2 = g.get c2 := by
    rw [Game.get_set]
    simp [hne]
  unfold Game.remove_dead
  cases hg : g.get c with
  | none => rfl
  | some u =>
    by_cases ha : u.is_alive
    · simp [ha]
    · simp only [ha, Bool.not_eq_true, if_pos]
      split
      · split
        · rw [Game.get_flagA, hset]
        · rw [Game.get_flagD, hset]
      · exact hset

/-- `mod_health` does not change cells other than its target. -/
theorem Game.get_mod_health_ne (g : Game) (c : Coord) (delta : Int) (c2 : Coord)
    (hne : c2 ≠ c) : (g.mod_health c delta).get c2 = g.get c2 := by
  unfold Game.mod_health
  cases hg : g.get c with
  | none => rfl
  | some target =>
    have h1 : ((g.set c (some (target.mod_health delta))).remove_dead c).get c2
        = (g.set c (some (target.mod_health delta))).get c2 :=
      Game.get_remove_dead_ne _ _ _ hne
    rw [h1, Game.get_set]
    simp [hne]

/-- `remove_dead` at its own (occupied) cell: drops the unit iff it is dead. -/
theorem Game.get_remove_dead_self (g : Game) (c : Coord) :
    (g.remove_dead c).get c =
      match g.get c with
      | none => none
      | some u => if u.is_alive then some u else none := by
  unfold Game.remove_dead
  cases hg : g.get c with
  | none => simp [hg]
  | some u =>
    have hv : g.is_valid_coord c = true := Game.get_some_valid hg
    have hset : (g.set c none).get c = none := by
      rw [Game.get_set]
      simp [hv]
    by_cases ha : u.is_alive
    · simp [ha, hg]
    · simp only [ha, Bool.not_eq_true, if_pos]
      split
      · split
        · rw [Game.get_flagA, hset]
          simp [ha]
        · rw [Game.get_flagD, hset]
          simp [ha]
      · rw [hset]
        simp [ha]

/-- The one-cell effect of `mod_health`: the unit's health is shifted and
clamped, and the unit is removed if the result is 0. -/
theorem Game.get_mod_health_self (g : Game) (c : Coord) (delta : Int) :
    (g.mod_health c delta).get c =
      match g.get c with
      | none => none
      | some u =>
        if (u.mod_health delta).is_alive then some (u.mod_health delta) else none := by
  unfold Game.mod_health
  cases hg : g.get c with
  | none => simp [hg]
  | some target =>
    have hv : g.is_valid_coord c = true := Game.get_some_valid hg
    have hget : (g.set c (some (target.mod_health delta))).get c
        = some (target.mod_health delta) := by
      rw [Game.get_set]
      simp [hv]
    rw [Game.get_remove_dead_self, hget]

/-- `Unit.mod_health` always lands in `[0, 9]`. -/
theorem Unit.mod_health_range (u : Unit) (delta : Int) :
    0 ≤ (u.mod_health delta).health ∧ (u.mod_health delta).health ≤ 9 := by
  unfold Unit.mod_health
  dsimp only
  split_ifs
  · simp
  · simp
  · simp
    omega

/-! ### C3 — health clamping invariant -/

/-- C3: for every unit starting with health in `[0, 9]` and every sequence of
health modifications (damage, repair and self-destruct splash are all applied
through `mod_health`), the health stays in `[0, 9]`: `mod_health` clamps
below at 0 and above at 9. At the board level, any unit present after a
`Game.mod_health` either sits in `[0, 9]` or was already in the cell,
untouched. -/
theorem claim_C3_health_clamped (u : Unit) (deltas : List Int)
    (h0 : 0 ≤ u.health) (h9 : u.health ≤ 9) :
    (0 ≤ (deltas.foldl Unit.mod_health u).health ∧
      (deltas.foldl Unit.mod_health u).health ≤ 9) ∧
    (∀ (g : Game) (c : Coord) (delta : Int) (c2 : Coord) (u2 : Unit),
      (g.mod_health c delta).get c2 = some u2 →
      (0 ≤ u2.health ∧ u2.health ≤ 9) ∨ g.get c2 = some u2) := by
  constructor
  · induction deltas generalizing u with
    | nil => exact ⟨h0, h9⟩
    | cons d rest ih =>
      simpa using ih (u.mod_health d) (u.mod_health_range d).1 (u.mod_health_range d).2
  · intro g c delta c2 u2 hget
    by_cases he : c2 = c
    · subst he
      rw [Game.get_mod_health_self] at hget
      cases hc : g.get c2 with
      | none =>
        rw [hc] at hget
        exact absurd hget (by simp)
      | some w =>
        rw [hc] at hget
        dsimp only at hget
        by_cases ha : (w.mod_health delta).is_alive
        · rw [if_pos ha] at hget
          injection hget with hu2
          exact Or.inl (hu2 ▸ w.mod_health_range delta)
        · rw [if_neg ha] at hget
          exact absurd hget (by simp)
    · exact Or.inr ((Game.get_mod_health_ne g c delta c2 he).symm.trans hget)

/-- Witness for C3 at a concrete unit and delta sequence. -/
theorem claim_C3_health_clamped_witness :
    0 ≤ (Unit.mk Player.Attacker UnitType.Program 9).health ∧
    (Unit.mk Player.Attacker UnitType.Program 9).health ≤ 9 ∧
    (0 ≤ (([-5, 20, -100] : List Int).foldl Unit.mod_health
        (Unit.mk Player.Attacker UnitType.Program 9)).health ∧
      (([-5, 20, -100] : List Int).foldl Unit.mod_health
        (Unit.mk Player.Attacker UnitType.Program 9)).health ≤ 9) :=
  ⟨by decide, by decide,
    (claim_C3_health_clamped (Unit.mk Player.Attacker UnitType.Program 9)
      [-5, 20, -100] (by decide) (by decide)).1⟩

/-! ### C1 — the validator bounds only the column delta -/

set_option maxRecDepth 8000 in
/-- C1: the claim fails on the code — the validator accepts the move
`(3,4) → (0,4)` of the default game (the Attacker's Virus jumping three rows)
because only the column delta is bounded by 1; `(0,4)` is not one of the four
orthogonal neighbors of `(3,4)`. The source's own comment ("Make sure that
targets are within an unit distance") documents the intended rule the code
fails to implement. -/
theorem claim_C1_row_delta_unbounded :
    default_game.is_valid_move (CoordPair.mk (Coord.mk 3 4) (Coord.mk 0 4)) = true ∧
    Coord.mk 0 4 ∉ (Coord.mk 3 4).iter_adjacent ∧
    default_game.get (Coord.mk 3 4)
      = some (Unit.mk Player.Attacker UnitType.Virus 9) ∧
    default_game.next_player = Player.Attacker := by
  refine ⟨by decide, by decide, by decide, by decide⟩

/-! ### C6 — forward-direction rule admits diagonal destinations -/

/-- The board used to exhibit the C6 violation: a lone Attacker `Program` at
`(2, 2)` on an otherwise empty default-options board. -/
def program_only_game : Game :=
  ({ board := fun _ => none } : Game).set (Coord.mk 2 2)
    (some (Unit.mk Player.Attacker UnitType.Program 9))

/-- C6: the claim fails on the code — the Attacker `Program` at `(2,2)` (not
adjacent to any enemy) may move to the *diagonal* empty cell `(1,3)`, which is
neither `(src.row-1, src.col)` nor `(src.row, src.col-1)`: the source encodes
the forward restriction as `dst.col != src.col-1 and dst.row != src.row-1`,
which passes whenever *either* coordinate matches, admitting diagonals. The
code's own comment ("can only move up, left") documents the intended rule. -/
theorem claim_C6_diagonal_admitted :
    program_only_game.is_valid_move (CoordPair.mk (Coord.mk 2 2) (Coord.mk 1 3)) = true ∧
    program_only_game.get (Coord.mk 1 3) = none ∧
    program_only_game.get (Coord.mk 2 2)
      = some (Unit.mk Player.Attacker UnitType.Program 9) ∧
    program_only_game.in_combat (Coord.mk 2 2) = false ∧
    Coord.mk 1 3 ∉ [Coord.mk 1 2, Coord.mk 2 1] := by
  refine ⟨by decide, by decide, by decide, by decide, by decide⟩

/-! ### C7 — terminal resolution -/

/-- C7: `has_winner` resolves exactly as claimed: reaching the turn limit
always hands the win to the Defender; under the limit, one dead AI hands the
win to the surviving side, and two live AIs leave the game undecided. -/
theorem claim_C7_terminal_resolution (g : Game) :
    (∀ max_turns, g.options.max_turns = some max_turns →
      g.turns_played ≥ max_turns → g.has_winner = some Player.Defender) ∧
    ((∀ max_turns, g.options.max_turns = some max_turns →
        g.turns_played < max_turns) →
      ((g.attacker_has_ai = true → g.defender_has_ai = false →
          g.has_winner = some Player.Attacker) ∧
        (g.attacker_has_ai = false → g.defender_has_ai = true →
          g.has_winner = some Player.Defender) ∧
        (g.attacker_has_ai = true → g.defender_has_ai = true →
          g.has_winner = none))) := by
  unfold Game.has_winner
  constructor
  · intro mt hmt hge
    rw [hmt]
    simp [hge]
  · intro hlt
    have hcond : (match g.options.max_turns with
        | some max_turns => decide (g.turns_played ≥ max_turns)
        | none => false) = false := by
      cases hmt : g.options.max_turns with
      | none => rfl
      | some mt =>
        have := hlt mt hmt
        simp
        omega
    refine ⟨?_, ?_, ?_⟩ <;> intro h1 h2 <;> rw [hcond] <;> simp [h1, h2]

/-- Witness for C7: the resolutions at concrete states (turn limit hit;
one AI dead on each side; both AIs alive), on empty boards with the default
options (turn limit 100). -/
theorem claim_C7_terminal_resolution_witness :
    ({ board := fun _ => none, turns_played := 100 } : Game).has_winner
        = some Player.Defender ∧
    ({ board := fun _ => none, defender_has_ai := false } : Game).has_winner
        = some Player.Attacker ∧
    ({ board := fun _ => none, attacker_has_ai := false } : Game).has_winner
        = some Player.Defender ∧
    ({ board := fun _ => none } : Game).has_winner = none := by
  have hlt : ∀ g : Game, g.options.max_turns = some 100 → g.turns_played = 0 →
      ∀ max_turns, g.options.max_turns = some max_turns →
        g.turns_played < max_turns := by
    intro g hopt h0 mt hmt
    rw [hopt] at hmt
    injection hmt with h
    rw [h0, ← h]
    omega
  refine ⟨?_, ?_, ?_, ?_⟩
  · exact (claim_C7_terminal_resolution _).1 100 rfl (by decide)
  · exact ((claim_C7_terminal_resolution _).2 (hlt _ rfl rfl)).1 rfl rfl
  · exact ((claim_C7_terminal_resolution _).2 (hlt _ rfl rfl)).2.1 rfl rfl
  · exact ((claim_C7_terminal_resolution _).2 (hlt _ rfl rfl)).2.2 rfl rfl

/-! ### C8 — the branching-factor computation is unguarded -/

/-- C8: the claim fails on the code — after a max-depth-0 search the
statistics dictionary holds only a depth-0 entry (`{0: 1}`), and the
branching-factor line performs an unguarded `d[0] / d[1]`, raising `KeyError`
instead of reporting the metric as not computable. -/
theorem claim_C8_raises :
    branching_factor [(0, 1)] = Except.error "KeyError" := by
  rfl

/-- C8 (amended): when the deeper-depth (depth-1) count is absent or zero,
the branching-factor computation of `suggest_move` raises (`KeyError` /
`ZeroDivisionError`) rather than reporting the metric as not computable. -/
theorem claim_C8_unguarded_division (d : List (Nat × Nat))
    (h : d.lookup 1 = none ∨ d.lookup 1 = some 0) :
    ∃ e, branching_factor d = Except.error e := by
  unfold branching_factor dict_getitem
  cases h0 : d.lookup 0 with
  | none => exact ⟨"KeyError", rfl⟩
  | some a =>
    rcases h with h | h
    · refine ⟨"KeyError", ?_⟩
      rw [h]
    · refine ⟨"ZeroDivisionError", ?_⟩
      rw [h]
      simp

/-- Witness for C8 (amended) at a concrete statistics dictionary with a zero
depth-1 count. -/
theorem claim_C8_unguarded_division_witness :
    ([(0, 5), (1, 0)] : List (Nat × Nat)).lookup 1 = some 0 ∧
    ∃ e, branching_factor [(0, 5), (1, 0)] = Except.error e :=
  ⟨by decide, claim_C8_unguarded_division [(0, 5), (1, 0)] (Or.inr (by decide))⟩

/-! ### C9 — depth-0 suggest_move returns no move -/

/-- A game with options `max_depth = 0` on a 1×1 board whose lone Attacker
unit has exactly one legal move (its self-destruct). -/
def depth0_game : Game :=
  ({ board := fun _ => none,
     options := { dim := 1, max_depth := 0 } } : Game).set (Coord.mk 0 0)
    (some (Unit.mk Player.Attacker UnitType.Program 9))

/-- C9: the claim fails on the code — with max depth 0 the root call of
`minimax` immediately hits its `depth == 0` leaf case and returns
`(heuristic, None)`, so `suggest_move` returns no move even though the side
to move has a legal move. (The returned move is `None` for every evaluator;
the constant evaluator stands in for `heuristic_e2` here.) -/
theorem claim_C9_depth0_counterexample :
    depth0_game.move_candidates ≠ [] ∧
    Game.suggest_move (fun _ => 0) depth0_game = none := by
  exact ⟨by decide, rfl⟩

/-- C9 (amended): for every evaluator and every state, `suggest_move` at max
depth 0 performs no move selection at all: it returns no move. -/
theorem claim_C9_depth0_no_move (h : Game → Int) (g : Game)
    (hd : g.options.max_depth = 0) :
    Game.suggest_move h g = none := by
  unfold Game.suggest_move
  rw [hd]
  rfl

/-- Witness for C9 (amended) at a concrete evaluator and state. -/
theorem claim_C9_depth0_no_move_witness :
    depth0_game.options.max_depth = 0 ∧
    Game.suggest_move (fun _ => 1) depth0_game = none :=
  ⟨rfl, claim_C9_depth0_no_move (fun _ => 1) depth0_game rfl⟩

/-! ### C4 — combat damage is simultaneous and uses pre-exchange state -/

/-- Every damage-table entry is nonnegative. -/
theorem Unit.damage_table_entry_nonneg (a b : UnitType) :
    0 ≤ (Unit.damage_table.getD a.value []).getD b.value 0 := by
  cases a <;> cases b <;> decide

/-- `damage_amount` is nonnegative and never exceeds the target's health
(when that health is nonnegative). -/
theorem Unit.damage_amount_range (u t : Unit) (ht : 0 ≤ t.health) :
    0 ≤ u.damage_amount t ∧ 0 ≤ t.health - u.damage_amount t := by
  have htab := Unit.damage_table_entry_nonneg u.type t.type
  unfold Unit.damage_amount
  dsimp only
  split_ifs with h
  · exact ⟨ht, by omega⟩
  · exact ⟨htab, by omega⟩

/-- Subtracting an in-range damage amount triggers neither clamp of
`mod_health`. -/
theorem Unit.mod_health_sub_damage (t : Unit) (dmg : Int)
    (h0 : 0 ≤ t.health - dmg) (h9 : t.health - dmg ≤ 9) :
    t.mod_health (-dmg) = { t with health := t.health - dmg } := by
  unfold Unit.mod_health
  dsimp only
  split_ifs with h1 h2
  · exfalso
    omega
  · exfalso
    omega
  · have he : t.health + -dmg = t.health - dmg := by ring
    rw [he]

/-- C4: in every combat move both damage amounts are computed from the two
units' pre-exchange health and kind: the unit left at `dst` (if any) is the
pre-move defender minus `us.damage_amount ud`, and the unit left at `src`
(if any) is the pre-move attacker minus `ud.damage_amount us` — the
defender's counter-damage is applied even when the attacker's damage reduces
the defender to 0 and removes it first (both formulas mention only pre-move
units; there is no sequential death short-circuit). -/
theorem claim_C4_combat_uses_pre_exchange_state (g : Game) (coords : CoordPair)
    (us ud : Unit)
    (hs : g.get coords.src = some us) (hd : g.get coords.dst = some ud)
    (hp : us.player ≠ ud.player) (hv : g.is_valid_move coords = true)
    (hus0 : 0 ≤ us.health) (hus9 : us.health ≤ 9)
    (hud0 : 0 ≤ ud.health) (hud9 : ud.health ≤ 9) :
    (g.perform_move coords).2.get coords.dst =
      (if ud.health - us.damage_amount ud ≤ 0 then none
        else some { ud with health := ud.health - us.damage_amount ud }) ∧
    (g.perform_move coords).2.get coords.src =
      (if us.health - ud.damage_amount us ≤ 0 then none
        else some { us with health := us.health - ud.damage_amount us }) := by
  have hne : coords.src ≠ coords.dst := by
    intro h
    rw [h, hd] at hs
    injection hs with h2
    exact hp (by rw [h2])
  have hdr := Unit.damage_amount_range us ud hud0
  have hsr := Unit.damage_amount_range ud us hus0
  have hstep : (g.perform_move coords).2
      = (g.mod_health coords.dst (-(us.damage_amount ud))).mod_health coords.src
          (-(ud.damage_amount us)) := by
    unfold Game.perform_move
    rw [hs, hd, hv]
    rw [if_pos rfl, if_neg (fun hh => hne hh.symm)]
    dsimp only
    rw [if_pos hp]
  have hmodd : ud.mod_health (-(us.damage_amount ud))
      = { ud with health := ud.health - us.damage_amount ud } :=
    Unit.mod_health_sub_damage ud (us.damage_amount ud) hdr.2 (by omega)
  have hmods : us.mod_health (-(ud.damage_amount us))
      = { us with health := us.health - ud.damage_amount us } :=
    Unit.mod_health_sub_damage us (ud.damage_amount us) hsr.2 (by omega)
  constructor
  · rw [hstep, Game.get_mod_health_ne _ _ _ _ (Ne.symm hne),
      Game.get_mod_health_self, hd]
    dsimp only
    rw [hmodd]
    by_cases hdd : ud.health - us.damage_amount ud ≤ 0
    · have h0 : ud.health - us.damage_amount ud = 0 := by omega
      simp [Unit.is_alive, h0, hdd]
    · have h1 : 0 < ud.health - us.damage_amount ud := by omega
      simp [Unit.is_alive, hdd, h1]
  · rw [hstep, Game.get_mod_health_self, Game.get_mod_health_ne _ _ _ _ hne, hs]
    dsimp only
    rw [hmods]
    by_cases hdd : us.health - ud.damage_amount us ≤ 0
    · have h0 : us.health - ud.damage_amount us = 0 := by omega
      simp [Unit.is_alive, h0, hdd]
    · have h1 : 0 < us.health - ud.damage_amount us := by omega
      simp [Unit.is_alive, hdd, h1]

/-- The board used by the C4 witness: an Attacker Virus at `(1,1)` attacking
the Defender AI at `(0,1)` (Virus→AI damage 9 kills the AI; the AI's counter
Virus damage 3 still lands). -/
def combat_game : Game :=
  (({ board := fun _ => none } : Game).set (Coord.mk 1 1)
    (some (Unit.mk Player.Attacker UnitType.Virus 9))).set (Coord.mk 0 1)
    (some (Unit.mk Player.Defender UnitType.AI 9))

/-- Witness for C4: the concrete exchange — the defender dies (removed), and
its counter-damage still reduces the attacker from 9 to 6. -/
theorem claim_C4_combat_uses_pre_exchange_state_witness :
    (combat_game.perform_move
        (CoordPair.mk (Coord.mk 1 1) (Coord.mk 0 1))).2.get (Coord.mk 0 1) = none ∧
    (combat_game.perform_move
        (CoordPair.mk (Coord.mk 1 1) (Coord.mk 0 1))).2.get (Coord.mk 1 1)
      = some (Unit.mk Player.Attacker UnitType.Virus 6) := by
  have h := claim_C4_combat_uses_pre_exchange_state combat_game
    (CoordPair.mk (Coord.mk 1 1) (Coord.mk 0 1))
    (Unit.mk Player.Attacker UnitType.Virus 9)
    (Unit.mk Player.Defender UnitType.AI 9)
    (by decide) (by decide) (by decide) (by decide)
    (by decide) (by decide) (by decide) (by decide)
  exact ⟨h.1.trans (by decide), h.2.trans (by decide)⟩

/-! ### C5 — self-destruct -/

/-- `intRange` over a width-3 interval, evaluated. -/
theorem intRange_len3 (a b : Int) (h : (b - a).toNat = 3) :
    intRange a b = [a, a + 1, a + 2] := by
  unfold intRange
  rw [h]
  show List.map (fun i => a + (i : Int)) [0, 1, 2] = _
  simp only [List.map_cons, List.map_nil]
  norm_num

/-- The nine cells yielded by `iter_range 1`, in yield order (row-major,
center included as the fifth element). -/
theorem Coord.iter_range_one (c : Coord) :
    c.iter_range 1 =
      [Coord.mk (c.row - 1) (c.col - 1), Coord.mk (c.row - 1) c.col,
       Coord.mk (c.row - 1) (c.col + 1), Coord.mk c.row (c.col - 1), c,
       Coord.mk c.row (c.col + 1), Coord.mk (c.row + 1) (c.col - 1),
       Coord.mk (c.row + 1) c.col, Coord.mk (c.row + 1) (c.col + 1)] := by
  unfold Coord.iter_range
  rw [intRange_len3 (c.row - 1) (c.row + 1 + 1) (by omega),
    intRange_len3 (c.col - 1) (c.col + 1 + 1) (by omega)]
  have e1 : c.row - 1 + 1 = c.row := by omega
  have e2 : c.row - 1 + 2 = c.row + 1 := by omega
  have f1 : c.col - 1 + 1 = c.col := by omega
  have f2 : c.col - 1 + 2 = c.col + 1 := by omega
  rw [e1, e2, f1, f2]
  rfl

/-- A fold of `mod_health` over cells not containing `c` leaves cell `c`
unchanged. -/
theorem foldl_mod_health_not_mem (l : List Coord) (g : Game) (delta : Int)
    (c : Coord) (hc : c ∉ l) :
    (l.foldl (fun acc x => acc.mod_health x delta) g).get c = g.get c := by
  induction l generalizing g with
  | nil => rfl
  | cons x xs ih =>
    have hx : c ≠ x := fun h => hc (h ▸ List.mem_cons_self x xs)
    have hxs : c ∉ xs := fun h => hc (List.mem_cons_of_mem x h)
    simp only [List.foldl_cons]
    rw [ih (g.mod_health x delta) hxs, Game.get_mod_health_ne _ _ _ _ hx]

/-- A fold of `mod_health` over cells containing `c` exactly once applies
exactly one `mod_health` to cell `c`. -/
theorem foldl_mod_health_mem_once (l1 l2 : List Coord) (g : Game) (delta : Int)
    (c : Coord) (h1 : c ∉ l1) (h2 : c ∉ l2) :
    ((l1 ++ c :: l2).foldl (fun acc x => acc.mod_health x delta) g).get c =
      match g.get c with
      | none => none
      | some u =>
        if (u.mod_health delta).is_alive then some (u.mod_health delta) else none := by
  rw [List.foldl_append]
  simp only [List.foldl_cons]
  rw [foldl_mod_health_not_mem _ _ _ _ h2, Game.get_mod_health_self,
    foldl_mod_health_not_mem _ _ _ _ h1]

/-- A self-destruct move of a unit of the side to move is always valid. -/
theorem Game.self_destruct_valid (g : Game) (src : Coord) (us : Unit)
    (hs : g.get src = some us) (hp : us.player = g.next_player) :
    g.is_valid_move (CoordPair.mk src src) = true := by
  have hv : g.is_valid_coord src = true := Game.get_some_valid hs
  unfold Game.is_valid_move
  dsimp only
  rw [if_neg (by simp [hv]), hs]
  dsimp only
  rw [if_neg (fun hh => hh hp), if_pos rfl]

/-- The state produced by the self-destruct branch of `perform_move`: 2 splash
damage to the whole `iter_range 1` square (center included), then the acting
unit's remaining health is zeroed out (re-reading the cell models the
`unitSrc` alias of the source, see `Game.perform_move`). -/
def explosion (g : Game) (src : Coord) : Game :=
  match ((src.iter_range 1).foldl (fun acc x => acc.mod_health x (-2)) g).get src with
  | some u =>
    ((src.iter_range 1).foldl (fun acc x => acc.mod_health x (-2)) g).mod_health src
      (-u.health)
  | none => (src.iter_range 1).foldl (fun acc x => acc.mod_health x (-2)) g

/-- `perform_move` on a valid self-destruct move executes the explosion. -/
theorem Game.perform_move_self_destruct (g : Game) (src : Coord) (us : Unit)
    (hs : g.get src = some us) (hp : us.player = g.next_player) :
    g.perform_move (CoordPair.mk src src) = (true, explosion g src) := by
  have hvm := Game.self_destruct_valid g src us hs hp
  unfold Game.perform_move explosion
  rw [hvm]
  dsimp only
  rw [if_pos rfl, if_pos rfl]

/-- Cells outside the blast square are untouched by the explosion. -/
theorem explosion_get_far (g : Game) (src c : Coord) (hcs : c ≠ src)
    (hnm : c ∉ src.iter_range 1) : (explosion g src).get c = g.get c := by
  unfold explosion
  cases hg1 : ((src.iter_range 1).foldl (fun acc x => acc.mod_health x (-2)) g).get src with
  | none => exact foldl_mod_health_not_mem _ _ _ _ hnm
  | some u =>
    rw [Game.get_mod_health_ne _ _ _ _ hcs]
    exact foldl_mod_health_not_mem _ _ _ _ hnm

/-- A non-center cell of the blast square takes exactly one `mod_health (-2)`. -/
theorem explosion_get_near (g : Game) (src c : Coord) (l1 l2 : List Coord)
    (hdec : src.iter_range 1 = l1 ++ c :: l2) (h1 : c ∉ l1) (h2 : c ∉ l2)
    (hcs : c ≠ src) :
    (explosion g src).get c =
      match g.get c with
      | none => none
      | some u =>
        if (u.mod_health (-2)).is_alive then some (u.mod_health (-2)) else none := by
  have hfold : ((src.iter_range 1).foldl (fun acc x => acc.mod_health x (-2)) g).get c =
      match g.get c with
      | none => none
      | some u =>
        if (u.mod_health (-2)).is_alive then some (u.mod_health (-2)) else none := by
    rw [hdec]
    exact foldl_mod_health_mem_once l1 l2 g (-2) c h1 h2
  unfold explosion
  cases hg1 : ((src.iter_range 1).foldl (fun acc x => acc.mod_health x (-2)) g).get src with
  | none => exact hfold
  | some u =>
    rw [Game.get_mod_health_ne _ _ _ _ hcs]
    exact hfold

/-- Zeroing out a unit's own health lands exactly at health 0. -/
theorem Unit.mod_health_neg_self (u : Unit) :
    u.mod_health (-u.health) = { u with health := 0 } := by
  unfold Unit.mod_health
  dsimp only
  have he : u.health + -u.health = 0 := by ring
  rw [he]
  split_ifs with h1 h2
  · exact absurd h1 (by omega)
  · exact absurd h2 (by omega)
  · rfl

/-- The acting unit's cell is empty after the explosion. -/
theorem explosion_get_src (g : Game) (src : Coord) (us : Unit)
    (hs : g.get src = some us) : (explosion g src).get src = none := by
  have h1 : src ∉ [Coord.mk (src.row - 1) (src.col - 1), Coord.mk (src.row - 1) src.col,
      Coord.mk (src.row - 1) (src.col + 1), Coord.mk src.row (src.col - 1)] := by
    obtain ⟨r, c⟩ := src
    simp only [List.mem_cons, List.not_mem_nil, Coord.mk.injEq, or_false]
    omega
  have h2 : src ∉ [Coord.mk src.row (src.col + 1), Coord.mk (src.row + 1) (src.col - 1),
      Coord.mk (src.row + 1) src.col, Coord.mk (src.row + 1) (src.col + 1)] := by
    obtain ⟨r, c⟩ := src
    simp only [List.mem_cons, List.not_mem_nil, Coord.mk.injEq, or_false]
    omega
  have hfold : ((src.iter_range 1).foldl (fun acc x => acc.mod_health x (-2)) g).get src =
      match g.get src with
      | none => none
      | some u =>
        if (u.mod_health (-2)).is_alive then some (u.mod_health (-2)) else none := by
    rw [Coord.iter_range_one]
    exact foldl_mod_health_mem_once _ _ g (-2) src h1 h2
  rw [hs] at hfold
  dsimp only at hfold
  unfold explosion
  by_cases ha : (us.mod_health (-2)).is_alive
  · rw [hfold]
    rw [if_pos ha]
    dsimp only
    rw [Game.get_mod_health_self, hfold, if_pos ha]
    dsimp only
    rw [Unit.mod_health_neg_self]
    simp [Unit.is_alive]
  · rw [hfold]
    rw [if_neg ha]
    dsimp only
    rw [hfold, if_neg ha]

/-- The one-step `-2` splash, rephrased: lose exactly 2 health, clamped at 0
(removal at 0). -/
theorem Unit.mod_health_sub2_cases (u : Unit) (h9 : u.health ≤ 9) :
    (if (u.mod_health (-2)).is_alive then some (u.mod_health (-2)) else none)
      = if 2 < u.health then some { u with health := u.health - 2 } else none := by
  have he : u.health + -2 = u.health - 2 := by ring
  unfold Unit.mod_health
  dsimp only
  rw [he]
  by_cases hl : u.health - 2 < 0
  · rw [if_pos hl, if_neg (by omega : ¬2 < u.health)]
    simp [Unit.is_alive]
  · rw [if_neg hl, if_neg (by omega : ¬u.health - 2 > 9)]
    by_cases hgt : 2 < u.health
    · rw [if_pos hgt]
      simp only [Unit.is_alive]
      rw [if_pos (by simp; omega)]
    · rw [if_neg hgt]
      simp only [Unit.is_alive]
      rw [if_neg (by simp; omega)]

/-- C5: executing a self-destruct move (src == dst, unit of the side to move
at src) empties the acting unit's cell; every other unit within Chebyshev
distance 1 loses exactly 2 health, clamped at 0 (a unit reduced to 0 is
removed); and every cell at Chebyshev distance greater than 1 is unaffected. -/
theorem claim_C5_self_destruct (g : Game) (src : Coord) (us : Unit)
    (hs : g.get src = some us) (hp : us.player = g.next_player) :
    ((g.perform_move (CoordPair.mk src src)).2.get src = none) ∧
    (∀ c u, c ≠ src → (c.row - src.row).natAbs ≤ 1 → (c.col - src.col).natAbs ≤ 1 →
      g.get c = some u → u.health ≤ 9 →
      (g.perform_move (CoordPair.mk src src)).2.get c =
        if 2 < u.health then some { u with health := u.health - 2 } else none) ∧
    (∀ c, 1 < (c.row - src.row).natAbs ∨ 1 < (c.col - src.col).natAbs →
      (g.perform_move (CoordPair.mk src src)).2.get c = g.get c) := by
  obtain ⟨sr, sc⟩ := src
  have hres : (g.perform_move (CoordPair.mk (Coord.mk sr sc) (Coord.mk sr sc))).2
      = explosion g (Coord.mk sr sc) := by
    rw [Game.perform_move_self_destruct g (Coord.mk sr sc) us hs hp]
  rw [hres]
  refine ⟨explosion_get_src g (Coord.mk sr sc) us hs, ?_, ?_⟩
  · intro c u hne hr1 hc1 hget h9
    obtain ⟨cr, cc⟩ := c
    simp only at hr1 hc1
    have h3r : sr - 1 = cr ∨ sr = cr ∨ sr + 1 = cr := by omega
    have h3c : sc - 1 = cc ∨ sc = cc ∨ sc + 1 = cc := by omega
    have hsub2 := Unit.mod_health_sub2_cases u h9
    rcases h3r with h | h | h <;> rcases h3c with h' | h' | h' <;> subst h <;> subst h'
    · rw [explosion_get_near g (Coord.mk sr sc) (Coord.mk (sr - 1) (sc - 1))
        []
        [Coord.mk (sr - 1) sc, Coord.mk (sr - 1) (sc + 1), Coord.mk sr (sc - 1),
          Coord.mk sr sc, Coord.mk sr (sc + 1), Coord.mk (sr + 1) (sc - 1),
          Coord.mk (sr + 1) sc, Coord.mk (sr + 1) (sc + 1)]
        (by rw [Coord.iter_range_one]; rfl)
        (by simp)
        (by simp only [List.mem_cons, List.not_mem_nil, Coord.mk.injEq, or_false]; omega)
        hne, hget]
      exact hsub2
    · rw [explosion_get_near g (Coord.mk sr sc) (Coord.mk (sr - 1) sc)
        [Coord.mk (sr - 1) (sc - 1)]
        [Coord.mk (sr - 1) (sc + 1), Coord.mk sr (sc - 1), Coord.mk sr sc,
          Coord.mk sr (sc + 1), Coord.mk (sr + 1) (sc - 1), Coord.mk (sr + 1) sc,
          Coord.mk (sr + 1) (sc + 1)]
        (by rw [Coord.iter_range_one]; rfl)
        (by simp only [List.mem_cons, List.not_mem_nil, Coord.mk.injEq, or_false]; omega)
        (by simp only [List.mem_cons, List.not_mem_nil, Coord.mk.injEq, or_false]; omega)
        hne, hget]
      exact hsub2
    · rw [explosion_get_near g (Coord.mk sr sc) (Coord.mk (sr - 1) (sc + 1))
        [Coord.mk (sr - 1) (sc - 1), Coord.mk (sr - 1) sc]
        [Coord.mk sr (sc - 1), Coord.mk sr sc, Coord.mk sr (sc + 1),
          Coord.mk (sr + 1) (sc - 1), Coord.mk (sr + 1) sc, Coord.mk (sr + 1) (sc + 1)]
        (by rw [Coord.iter_range_one]; rfl)
        (by simp only [List.mem_cons, List.not_mem_nil, Coord.mk.injEq, or_false]; omega)
        (by simp only [List.mem_cons, List.not_mem_nil, Coord.mk.injEq, or_false]; omega)
        hne, hget]
      exact hsub2
    · rw [explosion_get_near g (Coord.mk sr sc) (Coord.mk sr (sc - 1))
        [Coord.mk (sr - 1) (sc - 1), Coord.mk (sr - 1) sc, Coord.mk (sr - 1) (sc + 1)]
        [Coord.mk sr sc, Coord.mk sr (sc + 1), Coord.mk (sr + 1) (sc - 1),
          Coord.mk (sr + 1) sc, Coord.mk (sr + 1) (sc + 1)]
        (by rw [Coord.iter_range_one]; rfl)
        (by simp only [List.mem_cons, List.not_mem_nil, Coord.mk.injEq, or_false]; omega)
        (by simp only [List.mem_cons, List.not_mem_nil, Coord.mk.injEq, or_false]; omega)
        hne, hget]
      exact hsub2
    · exact absurd rfl hne
    · rw [explosion_get_near g (Coord.mk sr sc) (Coord.mk sr (sc + 1))
        [Coord.mk (sr - 1) (sc - 1), Coord.mk (sr - 1) sc, Coord.mk (sr - 1) (sc + 1),
          Coord.mk sr (sc - 1), Coord.mk sr sc]
        [Coord.mk (sr + 1) (sc - 1), Coord.mk (sr + 1) sc, Coord.mk (sr + 1) (sc + 1)]
        (by rw [Coord.iter_range_one]; rfl)
        (by simp only [List.mem_cons, List.not_mem_nil, Coord.mk.injEq, or_false]; omega)
        (by simp only [List.mem_cons, List.not_mem_nil, Coord.mk.injEq, or_false]; omega)
        hne, hget]
      exact hsub2
    · rw [explosion_get_near g (Coord.mk sr sc) (Coord.mk (sr + 1) (sc - 1))
        [Coord.mk (sr - 1) (sc - 1), Coord.mk (sr - 1) sc, Coord.mk (sr - 1) (sc + 1),
          Coord.mk sr (sc - 1), Coord.mk sr sc, Coord.mk sr (sc + 1)]
        [Coord.mk (sr + 1) sc, Coord.mk (sr + 1) (sc + 1)]
        (by rw [Coord.iter_range_one]; rfl)
        (by simp only [List.mem_cons, List.not_mem_nil, Coord.mk.injEq, or_false]; omega)
        (by simp only [List.mem_cons, List.not_mem_nil, Coord.mk.injEq, or_false]; omega)
        hne, hget]
      exact hsub2
    · rw [explosion_get_near g (Coord.mk sr sc) (Coord.mk (sr + 1) sc)
        [Coord.mk (sr - 1) (sc - 1), Coord.mk (sr - 1) sc, Coord.mk (sr - 1) (sc + 1),
          Coord.mk sr (sc - 1), Coord.mk sr sc, Coord.mk sr (sc + 1),
          Coord.mk (sr + 1) (sc - 1)]
        [Coord.mk (sr + 1) (sc + 1)]
        (by rw [Coord.iter_range_one]; rfl)
        (by simp only [List.mem_cons, List.not_mem_nil, Coord.mk.injEq, or_false]; omega)
        (by simp only [List.mem_cons, List.not_mem_nil, Coord.mk.injEq, or_false]; omega)
        hne, hget]
      exact hsub2
    · rw [explosion_get_near g (Coord.mk sr sc) (Coord.mk (sr + 1) (sc + 1))
        [Coord.mk (sr - 1) (sc - 1), Coord.mk (sr - 1) sc, Coord.mk (sr - 1) (sc + 1),
          Coord.mk sr (sc - 1), Coord.mk sr sc, Coord.mk sr (sc + 1),
          Coord.mk (sr + 1) (sc - 1), Coord.mk (sr + 1) sc]
        []
        (by rw [Coord.iter_range_one]; rfl)
        (by simp only [List.mem_cons, List.not_mem_nil, Coord.mk.injEq, or_false]; omega)
        (by simp)
        hne, hget]
      exact hsub2
  · intro c hfar
    obtain ⟨cr, cc⟩ := c
    have hfar2 : 1 < (cr - sr).natAbs ∨ 1 < (cc - sc).natAbs := hfar
    have hcs : Coord.mk cr cc ≠ Coord.mk sr sc := by
      intro h
      injection h with h1 h2
      omega
    have hnm : Coord.mk cr cc ∉ (Coord.mk sr sc).iter_range 1 := by
      rw [Coord.iter_range_one]
      simp only [List.mem_cons, List.not_mem_nil, Coord.mk.injEq, or_false]
      omega
    exact explosion_get_far g (Coord.mk sr sc) (Coord.mk cr cc) hcs hnm

/-- The board used by the C5 witness: an Attacker Program at `(1,1)` with a
1-health Defender Firewall at `(0,0)`, a full-health Defender Tech at `(2,1)`
and a Defender AI far away at `(4,4)`. -/
def sd_game : Game :=
  (((({ board := fun _ => none } : Game).set (Coord.mk 1 1)
    (some (Unit.mk Player.Attacker UnitType.Program 9))).set (Coord.mk 0 0)
    (some (Unit.mk Player.Defender UnitType.Firewall 1))).set (Coord.mk 2 1)
    (some (Unit.mk Player.Defender UnitType.Tech 9))).set (Coord.mk 4 4)
    (some (Unit.mk Player.Defender UnitType.AI 9))

/-- Witness for C5: the Program at `(1,1)` self-destructs — its cell empties,
the 1-health neighbor is clamped to 0 and removed, the 9-health neighbor
drops to exactly 7, and the far unit is untouched. -/
theorem claim_C5_self_destruct_witness :
    (sd_game.perform_move (CoordPair.mk (Coord.mk 1 1) (Coord.mk 1 1))).2.get
        (Coord.mk 1 1) = none ∧
    (sd_game.perform_move (CoordPair.mk (Coord.mk 1 1) (Coord.mk 1 1))).2.get
        (Coord.mk 0 0) = none ∧
    (sd_game.perform_move (CoordPair.mk (Coord.mk 1 1) (Coord.mk 1 1))).2.get
        (Coord.mk 2 1) = some (Unit.mk Player.Defender UnitType.Tech 7) ∧
    (sd_game.perform_move (CoordPair.mk (Coord.mk 1 1) (Coord.mk 1 1))).2.get
        (Coord.mk 4 4) = some (Unit.mk Player.Defender UnitType.AI 9) := by
  have h := claim_C5_self_destruct sd_game (Coord.mk 1 1)
    (Unit.mk Player.Attacker UnitType.Program 9) (by decide) (by decide)
  refine ⟨h.1, ?_, ?_, ?_⟩
  · exact (h.2.1 (Coord.mk 0 0) (Unit.mk Player.Defender UnitType.Firewall 1)
      (by decide) (by decide) (by decide) (by decide) (by decide)).trans (by decide)
  · exact (h.2.1 (Coord.mk 2 1) (Unit.mk Player.Defender UnitType.Tech 9)
      (by decide) (by decide) (by decide) (by decide) (by decide)).trans (by decide)
  · exact (h.2.2 (Coord.mk 4 4) (by decide)).trans (by decide)

/-! ### C10 — from_string parsing -/

/-- A character missing from an alphabet is found at `-1`. -/
theorem str_find_not_mem (alphabet : List Char) (c : Char) (h : c ∉ alphabet) :
    str_find alphabet c = -1 := by
  have hn : alphabet.findIdx? (· = c) = none := by
    rw [List.findIdx?_eq_none_iff]
    intro x hx
    simp
    intro he
    exact absurd (he ▸ hx) h
  unfold str_find
  rw [hn]

/-- C10: `CoordPair.from_string` returns a pair exactly when the cleaned-up
input has 4 characters (so it never returns `None` merely because a character
is invalid), the four components are the alphabet lookups of the four
characters, and an invalid character's lookup is `-1` (an out-of-bounds
coordinate component). -/
theorem claim_C10_from_string_total (s : List Char) :
    ((CoordPair.from_string s).isSome ↔ (clean_move_text s).length = 4) ∧
    (∀ c0 c1 c2 c3 : Char, clean_move_text s = [c0, c1, c2, c3] →
      CoordPair.from_string s =
        some (CoordPair.mk
          (Coord.mk (str_find row_letters (py_upper c0))
            (str_find col_digits (py_lower c1)))
          (Coord.mk (str_find row_letters (py_upper c2))
            (str_find col_digits (py_lower c3))))) ∧
    (∀ c : Char, py_upper c ∉ row_letters → str_find row_letters (py_upper c) = -1) ∧
    (∀ c : Char, py_lower c ∉ col_digits → str_find col_digits (py_lower c) = -1) := by
  refine ⟨?_, ?_, fun c hc => str_find_not_mem _ _ hc,
    fun c hc => str_find_not_mem _ _ hc⟩
  · unfold CoordPair.from_string
    by_cases h : (clean_move_text s).length = 4
    · simp [h]
    · simp [h]
  · intro c0 c1 c2 c3 hc
    unfold CoordPair.from_string
    rw [hc]
    rfl

/-- Witness for C10 at the input `" a1 ?2 "`: stripping and separator removal
leaves the 4 characters `a1?2`; a pair is returned even though `?` is not a
valid row letter — that component is `-1`. -/
theorem claim_C10_from_string_total_witness :
    clean_move_text (" a1 ?2 ".toList) = ['a', '1', '?', '2'] ∧
    CoordPair.from_string (" a1 ?2 ".toList)
      = some (CoordPair.mk (Coord.mk 0 1) (Coord.mk (-1) 2)) ∧
    py_upper '?' ∉ row_letters ∧
    str_find row_letters (py_upper '?') = -1 := by
  refine ⟨by decide, ?_, by decide, ?_⟩
  · exact ((claim_C10_from_string_total (" a1 ?2 ".toList)).2.1 'a' '1' '?' '2'
      (by decide)).trans (by decide)
  · exact (claim_C10_from_string_total (" a1 ?2 ".toList)).2.2.1 '?' (by decide)

/-! ### C2 — alpha-beta pruning returns the same root score as plain minimax

The development follows the classical fail-soft bound argument: `KM3` states
the three-case relation between a node's plain minimax value `v` and the
score `r` returned by the pruned search over a window `(alpha, beta)`; it is
proved by induction on depth with a loop invariant over the candidate list,
and instantiated at the root's full window where it collapses to equality. -/

/-- The strict-improvement update of the maximizing loop is `max`. -/
theorem if_gt_eq_max (a b : Int) : (if b > a then b else a) = max a b := by
  rcases le_or_lt b a with hba | hba
  · rw [if_neg (not_lt.mpr hba), max_eq_left hba]
  · rw [if_pos hba, max_eq_right (le_of_lt hba)]

/-- The strict-improvement update of the minimizing loop is `min`. -/
theorem if_lt_eq_min (a b : Int) : (if b < a then b else a) = min a b := by
  rcases le_or_lt a b with hab | hab
  · rw [if_neg (not_lt.mpr hab), min_eq_left hab]
  · rw [if_pos hab, min_eq_right (le_of_lt hab)]

/-- The initial accumulator is a lower bound of a `max`-fold. -/
theorem le_foldl_max (l : List CoordPair) (f : CoordPair → Int) (a : Int) :
    a ≤ l.foldl (fun acc m => max acc (f m)) a := by
  induction l generalizing a with
  | nil => exact le_refl a
  | cons x xs ih => exact le_trans (le_max_left a (f x)) (ih (max a (f x)))

/-- A `max`-fold stays below any common upper bound. -/
theorem foldl_max_le (l : List CoordPair) (f : CoordPair → Int) (a B : Int)
    (ha : a ≤ B) (hl : ∀ m ∈ l, f m ≤ B) :
    l.foldl (fun acc m => max acc (f m)) a ≤ B := by
  induction l generalizing a with
  | nil => exact ha
  | cons x xs ih =>
    exact ih (max a (f x)) (max_le ha (hl x (List.mem_cons_self x xs)))
      (fun m hm => hl m (List.mem_cons_of_mem x hm))

/-- Extracting one operand from the initial accumulator of a `max`-fold. -/
theorem foldl_max_init (l : List CoordPair) (f : CoordPair → Int) (a b : Int) :
    l.foldl (fun acc m => max acc (f m)) (max a b) =
      max (l.foldl (fun acc m => max acc (f m)) a) b := by
  induction l generalizing a with
  | nil => rfl
  | cons x xs ih =>
    simp only [List.foldl_cons]
    rw [sup_right_comm a b (f x), ih (max a (f x))]

/-- The initial accumulator is an upper bound of a `min`-fold. -/
theorem foldl_min_le (l : List CoordPair) (f : CoordPair → Int) (a : Int) :
    l.foldl (fun acc m => min acc (f m)) a ≤ a := by
  induction l generalizing a with
  | nil => exact le_refl a
  | cons x xs ih => exact le_trans (ih (min a (f x))) (min_le_left a (f x))

/-- A `min`-fold stays above any common lower bound. -/
theorem le_foldl_min (l : List CoordPair) (f : CoordPair → Int) (a B : Int)
    (ha : B ≤ a) (hl : ∀ m ∈ l, B ≤ f m) :
    B ≤ l.foldl (fun acc m => min acc (f m)) a := by
  induction l generalizing a with
  | nil => exact ha
  | cons x xs ih =>
    exact ih (min a (f x)) (le_min ha (hl x (List.mem_cons_self x xs)))
      (fun m hm => hl m (List.mem_cons_of_mem x hm))

/-- Extracting one operand from the initial accumulator of a `min`-fold. -/
theorem foldl_min_init (l : List CoordPair) (f : CoordPair → Int) (a b : Int) :
    l.foldl (fun acc m => min acc (f m)) (min a b) =
      min (l.foldl (fun acc m => min acc (f m)) a) b := by
  induction l generalizing a with
  | nil => rfl
  | cons x xs ih =>
    simp only [List.foldl_cons]
    rw [inf_right_comm a b (f x), ih (min a (f x))]

/-- Fail-soft alpha-beta bounds over a window `(alpha, beta)`: the pruned
score `r` equals the plain value `v` when `v` is strictly inside the window,
and is squeezed between `v` and the violated bound otherwise. -/
def KM3 (alpha beta v r : Int) : Prop :=
  (v ≤ alpha → v ≤ r ∧ r ≤ alpha) ∧
  (alpha < v → v < beta → r = v) ∧
  (beta ≤ v → beta ≤ r ∧ r ≤ v)

/-- With pruning off, the maximizing loop computes a `max`-fold of the child
values (and never touches alpha). -/
theorem maxLoop_false_fst (recur : Int → Game → Int × Option CoordPair)
    (beta : Int) (s1 : Game) (f : CoordPair → Int)
    (hrec : ∀ a m, (recur a (s1.perform_move m).2).1 = f m) :
    ∀ (l : List CoordPair) (score : Int) (best : Option CoordPair) (alpha : Int),
      (maxLoop recur false beta s1 l score best alpha).1 =
        l.foldl (fun acc m => max acc (f m)) score := by
  intro l
  induction l with
  | nil => intro score best alpha; rfl
  | cons x xs ih =>
    intro score best alpha
    simp only [maxLoop, List.foldl_cons, Bool.false_eq_true, if_false]
    rw [ih, hrec alpha x, if_gt_eq_max]

/-- With pruning off, the minimizing loop computes a `min`-fold of the child
values. -/
theorem minLoop_false_fst (recur : Int → Game → Int × Option CoordPair)
    (alpha : Int) (s1 : Game) (f : CoordPair → Int)
    (hrec : ∀ b m, (recur b (s1.perform_move m).2).1 = f m) :
    ∀ (l : List CoordPair) (score : Int) (best : Option CoordPair) (beta : Int),
      (minLoop recur false alpha s1 l score best beta).1 =
        l.foldl (fun acc m => min acc (f m)) score := by
  intro l
  induction l with
  | nil => intro score best beta; rfl
  | cons x xs ih =>
    intro score best beta
    simp only [minLoop, List.foldl_cons, Bool.false_eq_true, if_false]
    rw [ih, hrec beta x, if_lt_eq_min]

/-- With pruning off, `minimax` returns exactly the plain minimax value
`mmVal`, whatever the window. -/
theorem minimax_false_fst (h : Game → Int) :
    ∀ (d : Nat) (root : Bool) (alpha beta : Int) (maxP : Bool) (s : Game),
      (minimax h false d root alpha beta maxP s).1 = mmVal h d root maxP s := by
  intro d
  induction d with
  | zero => intro root alpha beta maxP s; rfl
  | succ d ih =>
    intro root alpha beta maxP s
    rw [minimax, mmVal]
    by_cases hf : s.is_finished
    · simp only [hf, if_true]
    · simp only [hf, Bool.false_eq_true, if_false]
      cases maxP with
      | true =>
        simp only [if_true]
        exact maxLoop_false_fst _ beta _ _ (fun a m => ih false a beta false _) _ _ _ _
      | false =>
        simp only [Bool.false_eq_true, if_false]
        exact minLoop_false_fst _ alpha _ _ (fun b m => ih false alpha b true _) _ _ _ _

/-- Fail-soft invariant of the pruned maximizing loop: if every child's
pruned result satisfies `KM3` over its window, so does the loop's score
relative to the `max`-fold of the remaining child values, provided the
running score never exceeds alpha (true at node entry, where the score
starts at `MIN_HEURISTIC_SCORE ≤ alpha`). -/
theorem maxLoop_ab_km (recur : Int → Game → Int × Option CoordPair) (beta : Int)
    (s1 : Game) (f : CoordPair → Int)
    (hrec : ∀ a m, MIN_HEURISTIC_SCORE ≤ a → a < beta →
      KM3 a beta (f m) ((recur a (s1.perform_move m).2).1)) :
    ∀ (l : List CoordPair) (score : Int) (best : Option CoordPair) (alpha : Int),
      MIN_HEURISTIC_SCORE ≤ alpha → alpha < beta → score ≤ alpha →
      KM3 alpha beta (l.foldl (fun acc m => max acc (f m)) score)
        ((maxLoop recur true beta s1 l score best alpha).1) := by
  intro l
  induction l with
  | nil =>
    intro score best alpha hMIN hab hsc
    simp only [maxLoop, List.foldl_nil]
    unfold KM3
    omega
  | cons x xs ih =>
    intro score best alpha hMIN hab hsc
    obtain ⟨P1, P2, P3⟩ := hrec alpha x hMIN hab
    simp only [maxLoop, List.foldl_cons, if_true]
    rw [if_gt_eq_max score ((recur alpha (s1.perform_move x).2).1)]
    by_cases hbr : beta ≤ max alpha ((recur alpha (s1.perform_move x).2).1)
    · rw [if_pos hbr]
      dsimp only
      have hm1 := le_max_left alpha ((recur alpha (s1.perform_move x).2).1)
      have hm2 := le_max_right alpha ((recur alpha (s1.perform_move x).2).1)
      have hm3 := max_choice alpha ((recur alpha (s1.perform_move x).2).1)
      have hm4 := le_max_left score ((recur alpha (s1.perform_move x).2).1)
      have hm5 := le_max_right score ((recur alpha (s1.perform_move x).2).1)
      have hm6 := max_choice score ((recur alpha (s1.perform_move x).2).1)
      have hm7 := le_max_left score (f x)
      have hm8 := le_max_right score (f x)
      have hT1 := le_foldl_max xs f (max score (f x))
      unfold KM3
      omega
    · rw [if_neg hbr]
      have hmac : max alpha ((recur alpha (s1.perform_move x).2).1) < beta :=
        not_le.mp hbr
      have hMIN2 : MIN_HEURISTIC_SCORE
          ≤ max alpha ((recur alpha (s1.perform_move x).2).1) :=
        le_trans hMIN (le_max_left _ _)
      have hsc2 : max score ((recur alpha (s1.perform_move x).2).1)
          ≤ max alpha ((recur alpha (s1.perform_move x).2).1) :=
        max_le_max hsc (le_refl _)
      have IH := ih (max score ((recur alpha (s1.perform_move x).2).1))
        (if (recur alpha (s1.perform_move x).2).1 > score then some x else best)
        (max alpha ((recur alpha (s1.perform_move x).2).1)) hMIN2 hmac hsc2
      rw [foldl_max_init xs f score ((recur alpha (s1.perform_move x).2).1)] at IH
      rw [foldl_max_init xs f score (f x)]
      unfold KM3 at IH ⊢
      have hm1 := le_max_left alpha ((recur alpha (s1.perform_move x).2).1)
      have hm2 := le_max_right alpha ((recur alpha (s1.perform_move x).2).1)
      have hm3 := max_choice alpha ((recur alpha (s1.perform_move x).2).1)
      have hm4 := le_max_left (xs.foldl (fun acc m => max acc (f m)) score)
        ((recur alpha (s1.perform_move x).2).1)
      have hm5 := le_max_right (xs.foldl (fun acc m => max acc (f m)) score)
        ((recur alpha (s1.perform_move x).2).1)
      have hm6 := max_choice (xs.foldl (fun acc m => max acc (f m)) score)
        ((recur alpha (s1.perform_move x).2).1)
      have hm7 := le_max_left (xs.foldl (fun acc m => max acc (f m)) score) (f x)
      have hm8 := le_max_right (xs.foldl (fun acc m => max acc (f m)) score) (f x)
      have hm9 := max_choice (xs.foldl (fun acc m => max acc (f m)) score) (f x)
      omega

/-- Fail-soft invariant of the pruned minimizing loop (mirror image). -/
theorem minLoop_ab_km (recur : Int → Game → Int × Option CoordPair) (alpha : Int)
    (s1 : Game) (f : CoordPair → Int)
    (hrec : ∀ b m, b ≤ MAX_HEURISTIC_SCORE → alpha < b →
      KM3 alpha b (f m) ((recur b (s1.perform_move m).2).1)) :
    ∀ (l : List CoordPair) (score : Int) (best : Option CoordPair) (beta : Int),
      beta ≤ MAX_HEURISTIC_SCORE → alpha < beta → beta ≤ score →
      KM3 alpha beta (l.foldl (fun acc m => min acc (f m)) score)
        ((minLoop recur true alpha s1 l score best beta).1) := by
  intro l
  induction l with
  | nil =>
    intro score best beta hMAX hab hsc
    simp only [minLoop, List.foldl_nil]
    unfold KM3
    omega
  | cons x xs ih =>
    intro score best beta hMAX hab hsc
    obtain ⟨P1, P2, P3⟩ := hrec beta x hMAX hab
    simp only [minLoop, List.foldl_cons, if_true]
    rw [if_lt_eq_min score ((recur beta (s1.perform_move x).2).1)]
    by_cases hbr : min beta ((recur beta (s1.perform_move x).2).1) ≤ alpha
    · rw [if_pos hbr]
      dsimp only
      have hm1 := min_le_left beta ((recur beta (s1.perform_move x).2).1)
      have hm2 := min_le_right beta ((recur beta (s1.perform_move x).2).1)
      have hm3 := min_choice beta ((recur beta (s1.perform_move x).2).1)
      have hm4 := min_le_left score ((recur beta (s1.perform_move x).2).1)
      have hm5 := min_le_right score ((recur beta (s1.perform_move x).2).1)
      have hm6 := min_choice score ((recur beta (s1.perform_move x).2).1)
      have hm7 := min_le_left score (f x)
      have hm8 := min_le_right score (f x)
      have hT1 := foldl_min_le xs f (min score (f x))
      unfold KM3
      omega
    · rw [if_neg hbr]
      have hmac : alpha < min beta ((recur beta (s1.perform_move x).2).1) :=
        not_le.mp hbr
      have hMAX2 : min beta ((recur beta (s1.perform_move x).2).1)
          ≤ MAX_HEURISTIC_SCORE :=
        le_trans (min_le_left _ _) hMAX
      have hsc2 : min beta ((recur beta (s1.perform_move x).2).1)
          ≤ min score ((recur beta (s1.perform_move x).2).1) :=
        min_le_min hsc (le_refl _)
      have IH := ih (min score ((recur beta (s1.perform_move x).2).1))
        (if (recur beta (s1.perform_move x).2).1 < score then some x else best)
        (min beta ((recur beta (s1.perform_move x).2).1)) hMAX2 hmac hsc2
      rw [foldl_min_init xs f score ((recur beta (s1.perform_move x).2).1)] at IH
      rw [foldl_min_init xs f score (f x)]
      unfold KM3 at IH ⊢
      have hm1 := min_le_left beta ((recur beta (s1.perform_move x).2).1)
      have hm2 := min_le_right beta ((recur beta (s1.perform_move x).2).1)
      have hm3 := min_choice beta ((recur beta (s1.perform_move x).2).1)
      have hm4 := min_le_left (xs.foldl (fun acc m => min acc (f m)) score)
        ((recur beta (s1.perform_move x).2).1)
      have hm5 := min_le_right (xs.foldl (fun acc m => min acc (f m)) score)
        ((recur beta (s1.perform_move x).2).1)
      have hm6 := min_choice (xs.foldl (fun acc m => min acc (f m)) score)
        ((recur beta (s1.perform_move x).2).1)
      have hm7 := min_le_left (xs.foldl (fun acc m => min acc (f m)) score) (f x)
      have hm8 := min_le_right (xs.foldl (fun acc m => min acc (f m)) score) (f x)
      have hm9 := min_choice (xs.foldl (fun acc m => min acc (f m)) score) (f x)
      omega

/-- Fail-soft bounds for the pruned `minimax` at every node, by induction on
depth. -/
theorem minimax_ab_km (h : Game → Int) :
    ∀ (d : Nat) (root maxP : Bool) (s : Game) (alpha beta : Int),
      MIN_HEURISTIC_SCORE ≤ alpha → alpha < beta → beta ≤ MAX_HEURISTIC_SCORE →
      KM3 alpha beta (mmVal h d root maxP s)
        ((minimax h true d root alpha beta maxP s).1) := by
  intro d
  induction d with
  | zero =>
    intro root maxP s alpha beta hMIN hab hMAX
    rw [minimax, mmVal]
    unfold KM3
    omega
  | succ d ih =>
    intro root maxP s alpha beta hMIN hab hMAX
    rw [minimax, mmVal]
    by_cases hf : s.is_finished
    · simp only [hf, if_true]
      unfold KM3
      omega
    · simp only [hf, Bool.false_eq_true, if_false]
      cases maxP with
      | true =>
        simp only [if_true]
        exact maxLoop_ab_km _ beta _ _
          (fun a m ha hab2 => ih false false _ a beta ha hab2 hMAX)
          _ MIN_HEURISTIC_SCORE none alpha hMIN hab hMIN
      | false =>
        simp only [Bool.false_eq_true, if_false]
        exact minLoop_ab_km _ alpha _ _
          (fun b m hb hab2 => ih false true _ alpha b hMIN hab2 hb)
          _ MAX_HEURISTIC_SCORE none beta hMAX hab hMAX

/-- For a heuristic bounded by the score window constants, every plain
minimax value stays inside `[MIN_HEURISTIC_SCORE, MAX_HEURISTIC_SCORE]`. -/
theorem mmVal_bounds (h : Game → Int)
    (hb : ∀ s, MIN_HEURISTIC_SCORE ≤ h s ∧ h s ≤ MAX_HEURISTIC_SCORE) :
    ∀ (d : Nat) (root maxP : Bool) (s : Game),
      MIN_HEURISTIC_SCORE ≤ mmVal h d root maxP s ∧
        mmVal h d root maxP s ≤ MAX_HEURISTIC_SCORE := by
  intro d
  induction d with
  | zero =>
    intro root maxP s
    rw [mmVal]
    exact hb s
  | succ d ih =>
    intro root maxP s
    rw [mmVal]
    by_cases hf : s.is_finished
    · simp only [hf, if_true]
      exact hb s
    · simp only [hf, Bool.false_eq_true, if_false]
      cases maxP with
      | true =>
        simp only [if_true]
        constructor
        · exact le_foldl_max _ _ _
        · exact foldl_max_le _ _ _ _ (by decide) (fun m _ => (ih false false _).2)
      | false =>
        simp only [Bool.false_eq_true, if_false]
        constructor
        · exact le_foldl_min _ _ _ _ (by decide) (fun m _ => (ih false true _).1)
        · exact foldl_min_le _ _ _

/-- C2: for a fixed depth and a fixed (window-bounded) heuristic evaluator,
with no time-budget interruption (the embedding models uninterrupted runs),
the top-level minimax run with alpha-beta pruning enabled returns the same
best-move score as the run with pruning disabled. (The node counts recorded
in the statistics, which are not part of the returned score, are the only
thing allowed to differ; the returned move may differ as well, which the
claim does not constrain.) -/
theorem claim_C2_alpha_beta_same_score (h : Game → Int)
    (hb : ∀ s, MIN_HEURISTIC_SCORE ≤ h s ∧ h s ≤ MAX_HEURISTIC_SCORE)
    (depth : Nat) (g : Game) :
    (minimax h true depth true MIN_HEURISTIC_SCORE MAX_HEURISTIC_SCORE true g).1 =
      (minimax h false depth true MIN_HEURISTIC_SCORE MAX_HEURISTIC_SCORE true g).1 := by
  have hkm := minimax_ab_km h depth true true g MIN_HEURISTIC_SCORE MAX_HEURISTIC_SCORE
    (le_refl _) (by decide) (le_refl _)
  have hbd := mmVal_bounds h hb depth true true g
  rw [minimax_false_fst h depth true MIN_HEURISTIC_SCORE MAX_HEURISTIC_SCORE true g]
  unfold KM3 at hkm
  omega

/-- Witness for C2 at a concrete bounded evaluator, depth and state (the 1×1
board of `depth0_game`, searched at depth 2). -/
theorem claim_C2_alpha_beta_same_score_witness :
    (minimax (fun _ => 0) true 2 true MIN_HEURISTIC_SCORE MAX_HEURISTIC_SCORE true
        depth0_game).1 =
      (minimax (fun _ => 0) false 2 true MIN_HEURISTIC_SCORE MAX_HEURISTIC_SCORE true
        depth0_game).1 :=
  claim_C2_alpha_beta_same_score (fun _ => 0)
    (fun _ => ⟨by show MIN_HEURISTIC_SCORE ≤ 0; decide,
      by show (0 : Int) ≤ MAX_HEURISTIC_SCORE; decide⟩)
    2 depth0_game

end AIWargame
